import Mathlib

/-!  Verification of the VerifikaQA repository: a shallow embedding of its
command-construction, file-consolidation and report-processing logic,
together with theorems checking the natural-language specification.

Python strings are modelled as Lean `String`; where character-level
reasoning is needed we pass to `String.data : List Char`.  Windows path
joining (`pathlib.Path(a, b)` / `os.path.join`) is modelled as
`a ++ "/" ++ b`, matching the separator the repository itself writes in
`main.py` (`f"{files_dir}/temp_report.xlsx"`).  -/

/-!  ## Substring machinery  -/

/--  The double-quote character, written via its code point so that the
development never needs a quote inside a character literal.  -/
def qc : Char := Char.ofNat 34

/--  `prefB p s` decides whether the list `p` is a prefix of `s`.  -/
def prefB : List Char → List Char → Bool
  | [], _ => true
  | _ :: _, [] => false
  | x :: p, y :: s => x == y && prefB p s

/--  `occursB p s` decides whether `p` occurs contiguously inside `s`.  -/
def occursB (p : List Char) : List Char → Bool
  | [] => prefB p []
  | c :: s => prefB p (c :: s) || occursB p s

/--  `p` occurs contiguously inside `s`.  -/
def Occurs (p s : List Char) : Prop := ∃ a b, s = a ++ p ++ b

/--  `s` ends with the list `p`.  -/
def EndsIn (p s : List Char) : Prop := ∃ a, s = a ++ p

/--  All the given fragments occur inside `s`, in the given order and
without overlapping.  -/
def InOrder : List (List Char) → List Char → Prop
  | [], _ => True
  | p :: ps, s => ∃ a b, s = a ++ p ++ b ∧ InOrder ps b

theorem prefB_iff : ∀ {p s : List Char}, prefB p s = true ↔ ∃ t, s = p ++ t := by
  intro p
  induction p with
  | nil =>
    intro s
    simp [prefB]
  | cons x p ih =>
    intro s
    cases s with
    | nil =>
      simp [prefB]
    | cons y s =>
      simp only [prefB, Bool.and_eq_true, beq_iff_eq, ih, List.cons_append]
      constructor
      · rintro ⟨rfl, t, rfl⟩
        exact ⟨t, rfl⟩
      · rintro ⟨t, h⟩
        injection h with h1 h2
        exact ⟨h1.symm, t, h2⟩

theorem occursB_iff : ∀ {p s : List Char}, occursB p s = true ↔ Occurs p s := by
  intro p s
  induction s with
  | nil =>
    simp only [occursB, prefB_iff, Occurs]
    constructor
    · rintro ⟨t, ht⟩
      exact ⟨[], t, by simpa using ht⟩
    · rintro ⟨a, b, h⟩
      have h' := h.symm
      simp only [List.append_assoc, List.append_eq_nil] at h'
      exact ⟨[], by simp [h'.1, h'.2.1, h'.2.2]⟩
  | cons c s ih =>
    simp only [occursB, Bool.or_eq_true, prefB_iff, ih]
    constructor
    · rintro (⟨t, ht⟩ | ⟨a, b, rfl⟩)
      · exact ⟨[], t, by simpa using ht⟩
      · exact ⟨c :: a, b, rfl⟩
    · rintro ⟨a, b, h⟩
      cases a with
      | nil =>
        left
        exact ⟨b, by simpa using h⟩
      | cons d a =>
        right
        simp only [List.cons_append] at h
        injection h with h1 h2
        exact ⟨a, b, h2⟩

theorem not_occurs_of_occursB {p s : List Char} (h : occursB p s = false) :
    ¬ Occurs p s := by
  intro ho
  rw [← occursB_iff] at ho
  simp [h] at ho

instance (p s : List Char) : Decidable (Occurs p s) :=
  decidable_of_iff _ occursB_iff

/--  Splitting an occurrence across two concatenated lists.  -/
theorem append_split {w x y z : List Char} (h : w ++ x = y ++ z) :
    (∃ t, y = w ++ t ∧ x = t ++ z) ∨ (∃ t, w = y ++ t ∧ z = t ++ x) := by
  induction w generalizing y with
  | nil =>
    exact Or.inl ⟨y, rfl, h⟩
  | cons a w ih =>
    cases y with
    | nil =>
      exact Or.inr ⟨a :: w, rfl, h.symm⟩
    | cons b y =>
      simp only [List.cons_append] at h
      injection h with h1 h2
      subst h1
      rcases ih h2 with ⟨t, rfl, rfl⟩ | ⟨t, rfl, rfl⟩
      · exact Or.inl ⟨t, rfl, rfl⟩
      · exact Or.inr ⟨t, rfl, rfl⟩

/--  A pattern that avoids the character `c` cannot straddle it: any
occurrence inside `a ++ c :: b` is an occurrence inside `a` or inside `b`.  -/
theorem occurs_split {p a b : List Char} {c : Char} (hc : c ∉ p) :
    Occurs p (a ++ c :: b) → Occurs p a ∨ Occurs p b := by
  rintro ⟨u, v, h⟩
  rw [List.append_assoc u] at h
  rcases append_split h with ⟨t, rfl, hv⟩ | ⟨t, rfl, ht⟩
  · cases t with
    | nil =>
      simp only [List.nil_append] at hv
      cases p with
      | nil => exact Or.inl ⟨a, [], by simp⟩
      | cons p0 p =>
        exfalso
        injection hv with hv1 _
        exact hc (by rw [hv1]; simp)
    | cons t0 t =>
      simp only [List.cons_append] at hv
      injection hv with _ hv2
      exact Or.inr ⟨t, v, by rw [hv2, List.append_assoc]⟩
  · rcases append_split ht with ⟨r, rfl, rfl⟩ | ⟨r, hp, hr⟩
    · exact Or.inl ⟨u, r, (List.append_assoc u p r).symm⟩
    · cases r with
      | nil =>
        exact Or.inl ⟨u, [], by simp [hp]⟩
      | cons r0 r =>
        exfalso
        injection hr with hr1 _
        exact hc (by rw [hp, hr1]; simp)

/-!  ## Embedding of `qa_command_utils.py` (and the identical functions of
`old_verifika.py`)  -/

/--  Model of Python `s.split(" ")[0]`: the longest prefix of `s` free of
the space character (empty when `s` starts with a space).  -/
def splitFirst (s : String) : String :=
  String.mk (s.data.takeWhile (fun c => c ≠ ' '))

/--  `_determine_report_preset` from `qa_command_utils.py` (lines 56-72).  -/
def determineReportPreset (error_types : List String) : String :=
  let report_presets : List String := ["Common Errors", "Consistency Errors", "Spelling Errors"]
  match error_types with
  | [choice] => if report_presets.contains choice then splitFirst choice else "Full"
  | _ => "Full"

/--  `get_report_type` from `old_verifika.py` (lines 73-88); its body is
textually identical to `_determine_report_preset`.  -/
def get_report_type (error_types : List String) : String :=
  let report_presets : List String := ["Common Errors", "Consistency Errors", "Spelling Errors"]
  match error_types with
  | [choice] => if report_presets.contains choice then splitFirst choice else "Full"
  | _ => "Full"

/--  `generate_qa_command` from `qa_command_utils.py` (lines 9-34).  The
function is a pure Lean function, so the spec's "performs no I/O; the output
depends only on its arguments" holds by construction.  -/
def generate_qa_command (files_dir verifika_exe_location files_to_check
    verifika_profile : String) (error_types : List String)
    (manual_report : Bool) : String :=
  let report_type := determineReportPreset error_types
  let cmd_command :=
    "\"" ++ verifika_exe_location ++ "\" -files \"" ++ files_to_check ++
      "\" -profile \"" ++ verifika_profile ++ "\" -startcheck -type " ++ report_type
  if !manual_report then
    let temp_report_name := files_dir ++ "/temp_report.xlsx"
    cmd_command ++ " -result " ++ temp_report_name
  else
    cmd_command

/--  `generate_cmd_command` from `old_verifika.py` (lines 24-50); textually
identical command text, with `os.path.join` in place of `pathlib.Path`.  -/
def generate_cmd_command (files_dir verifika_exe_location files_to_check
    verifika_profile : String) (error_types : List String)
    (manual_optimization : Bool) : String :=
  let report_type := get_report_type error_types
  let cmd_command :=
    "\"" ++ verifika_exe_location ++ "\" -files \"" ++ files_to_check ++
      "\" -profile \"" ++ verifika_profile ++ "\" -startcheck -type " ++ report_type
  if !manual_optimization then
    let temp_report_name := files_dir ++ "/temp_report.xlsx"
    cmd_command ++ " -result " ++ temp_report_name
  else
    cmd_command

/--  C4: preset resolution returns the first word of the single selected
label when that label is one of the three single-category presets, and
`"Full"` in every other case; it is deterministic, and the old and new
implementations agree.  -/
theorem c4_report_preset (error_types : List String) :
    (error_types = ["Common Errors"] → determineReportPreset error_types = "Common")
    ∧ (error_types = ["Consistency Errors"] → determineReportPreset error_types = "Consistency")
    ∧ (error_types = ["Spelling Errors"] → determineReportPreset error_types = "Spelling")
    ∧ ((¬ ∃ l, error_types = [l] ∧
          l ∈ (["Common Errors", "Consistency Errors", "Spelling Errors"] : List String)) →
        determineReportPreset error_types = "Full")
    ∧ (∀ other, error_types = other →
        determineReportPreset error_types = determineReportPreset other)
    ∧ get_report_type error_types = determineReportPreset error_types := by
  refine ⟨?_, ?_, ?_, ?_, ?_, ?_⟩
  · rintro rfl; decide
  · rintro rfl; decide
  · rintro rfl; decide
  · intro h
    match error_types with
    | [] => rfl
    | a :: b :: rest => rfl
    | [choice] =>
      simp only [determineReportPreset]
      rw [if_neg]
      intro hc
      exact h ⟨choice, rfl, by simpa using hc⟩
  · rintro other rfl; rfl
  · cases error_types with
    | nil => rfl
    | cons a rest => cases rest <;> rfl

/--  Witness for C4 at the spec's own test inputs.  -/
theorem c4_report_preset_witness :
    determineReportPreset ["Consistency Errors"] = "Consistency"
    ∧ determineReportPreset ["Full"] = "Full"
    ∧ determineReportPreset ["Common Errors", "Spelling Errors"] = "Full" := by
  refine ⟨(c4_report_preset _).2.1 rfl, ?_, ?_⟩
  · refine (c4_report_preset _).2.2.2.1 ?_
    rintro ⟨l, hl, hm⟩
    injection hl with h1 _
    rw [← h1] at hm
    simp at hm
  · refine (c4_report_preset _).2.2.2.1 ?_
    rintro ⟨l, hl, _⟩
    simp at hl

/-!  ## Structure of the generated command string  -/

/--  Character-level shape of the command when `manual_report` is true: the
six double quotes are made explicit so that occurrences can be split at
them.  -/
theorem shape_manual (d e f p : String) (ts : List String) :
    (generate_qa_command d e f p ts true).data =
      qc :: (e.data ++ qc :: (" -files ".data ++ qc :: (f.data ++ qc :: (" -profile ".data ++
        qc :: (p.data ++ qc :: (" -startcheck -type ".data ++ (determineReportPreset ts).data)))))) := by
  have h1 : generate_qa_command d e f p ts true =
      "\"" ++ e ++ "\" -files \"" ++ f ++ "\" -profile \"" ++ p ++ "\" -startcheck -type " ++
        determineReportPreset ts := rfl
  rw [h1]
  simp only [String.data_append, qc, List.append_assoc, List.cons_append,
    List.singleton_append, List.nil_append]

/--  Character-level shape of the command when `manual_report` is false.  -/
theorem shape_auto (d e f p : String) (ts : List String) :
    (generate_qa_command d e f p ts false).data =
      qc :: (e.data ++ qc :: (" -files ".data ++ qc :: (f.data ++ qc :: (" -profile ".data ++
        qc :: (p.data ++ qc :: (" -startcheck -type ".data ++ ((determineReportPreset ts).data
          ++ (" -result ".data ++ (d.data ++ "/temp_report.xlsx".data))))))))) := by
  have h1 : generate_qa_command d e f p ts false =
      "\"" ++ e ++ "\" -files \"" ++ f ++ "\" -profile \"" ++ p ++ "\" -startcheck -type " ++
        determineReportPreset ts ++ " -result " ++ (d ++ "/temp_report.xlsx") := rfl
  rw [h1]
  simp only [String.data_append, qc, List.append_assoc, List.cons_append,
    List.singleton_append, List.nil_append]

theorem endsIn_occurs {p s : List Char} (h : EndsIn p s) : Occurs p s := by
  rcases h with ⟨a, rfl⟩
  exact ⟨a, [], by simp⟩

theorem endsIn_getLast {p s : List Char} {c : Char} (h : EndsIn p s)
    (hp : p.getLast? = some c) : s.getLast? = some c := by
  rcases h with ⟨a, rfl⟩
  rw [List.getLast?_append, hp]
  rfl

/--  The preset placed after `-type` is always one of the four fixed
engine presets.  -/
theorem preset_mem (ts : List String) :
    determineReportPreset ts ∈ (["Common", "Consistency", "Spelling", "Full"] : List String) := by
  match ts with
  | [] => decide
  | a :: b :: r =>
    have h : determineReportPreset (a :: b :: r) = "Full" := rfl
    rw [h]; decide
  | [choice] =>
    cases hc : (["Common Errors", "Consistency Errors", "Spelling Errors"] : List String).contains choice with
    | true =>
      have hd : choice = "Common Errors" ∨ choice = "Consistency Errors"
          ∨ choice = "Spelling Errors" := by
        have hm : choice ∈ (["Common Errors", "Consistency Errors", "Spelling Errors"] : List String) := by
          simpa using hc
        simpa using hm
      rcases hd with rfl | rfl | rfl <;> decide
    | false =>
      have h : determineReportPreset [choice] = "Full" := by
        show (if (["Common Errors", "Consistency Errors", "Spelling Errors"] : List String).contains choice = true
            then splitFirst choice else "Full") = "Full"
        rw [hc]
        simp
      rw [h]; decide

theorem occurs_cons_elim {p b : List Char} {c : Char} (hc : c ∉ p) (hp : p ≠ []) :
    Occurs p (c :: b) → Occurs p b := by
  intro h
  have h' : Occurs p ([] ++ c :: b) := by simpa using h
  rcases occurs_split hc h' with h0 | hb
  · rcases h0 with ⟨x, y, hxy⟩
    have h2 := hxy.symm
    simp only [List.append_assoc, List.append_eq_nil] at h2
    exact absurd h2.2.1 hp
  · exact hb

theorem occurs_seg_step {p seg rest : List Char} {c : Char} (hc : c ∉ p)
    (hseg : ¬ Occurs p seg) : Occurs p (seg ++ c :: rest) → Occurs p rest :=
  fun h => (occurs_split hc h).resolve_left hseg

/--  The five mandatory command fragments appear in order in any string of
the generated shape, whatever follows the preset.  -/
theorem cmd_inorder_aux (e f p rt : String) (tail : List Char) :
    InOrder [e.data, ("-files \"" ++ f ++ "\"").data, ("-profile \"" ++ p ++ "\"").data,
        "-startcheck".data, ("-type " ++ rt).data]
      (qc :: (e.data ++ qc :: (" -files ".data ++ qc :: (f.data ++ qc :: (" -profile ".data ++
        qc :: (p.data ++ qc :: (" -startcheck -type ".data ++ (rt.data ++ tail)))))))) := by
  refine ⟨[qc],
    [qc, ' '] ++ ("-files \"" ++ f ++ "\"").data ++ ([' '] ++ ("-profile \"" ++ p ++ "\"").data ++
      ([' '] ++ "-startcheck".data ++ ([' '] ++ ("-type " ++ rt).data ++ tail))), ?_,
    [qc, ' '],
    [' '] ++ ("-profile \"" ++ p ++ "\"").data ++
      ([' '] ++ "-startcheck".data ++ ([' '] ++ ("-type " ++ rt).data ++ tail)), rfl,
    [' '],
    [' '] ++ "-startcheck".data ++ ([' '] ++ ("-type " ++ rt).data ++ tail), rfl,
    [' '],
    [' '] ++ ("-type " ++ rt).data ++ tail, rfl,
    [' '], tail, rfl, trivial⟩
  simp only [String.data_append, qc, List.append_assoc, List.cons_append,
    List.singleton_append, List.nil_append]

/--  C1: the generated command contains the executable path, `-files`, the
input path, `-profile`, the profile path, `-startcheck` and `-type` with the
resolved preset, in this order, and ends with the `-result` flag pointing at
`<files_dir>/temp_report.xlsx` exactly when `manual_report` is false; with
`manual_report` true, `-result` does not appear anywhere (provided no
argument path itself contains the text `-result`).  The builder is a pure
function of its arguments.  -/
theorem c1_command_structure (d e f p : String) (ts : List String) (manual : Bool)
    (he : ¬ Occurs "-result".data e.data)
    (hf : ¬ Occurs "-result".data f.data)
    (hp : ¬ Occurs "-result".data p.data) :
    InOrder [e.data, ("-files \"" ++ f ++ "\"").data, ("-profile \"" ++ p ++ "\"").data,
        "-startcheck".data, ("-type " ++ determineReportPreset ts).data]
      (generate_qa_command d e f p ts manual).data
    ∧ (EndsIn (" -result " ++ d ++ "/temp_report.xlsx").data
        (generate_qa_command d e f p ts manual).data ↔ manual = false)
    ∧ (manual = true → ¬ Occurs "-result".data (generate_qa_command d e f p ts manual).data) := by
  have hqc : qc ∉ "-result".data := by decide
  have hno : manual = true →
      ¬ Occurs "-result".data (generate_qa_command d e f p ts manual).data := by
    rintro rfl
    rw [shape_manual]
    intro ho
    have h1 := occurs_cons_elim hqc (by decide) ho
    have h2 := occurs_seg_step hqc he h1
    have h3 := occurs_seg_step hqc (by decide) h2
    have h4 := occurs_seg_step hqc hf h3
    have h5 := occurs_seg_step hqc (by decide) h4
    have h6 := occurs_seg_step hqc hp h5
    have hcase : determineReportPreset ts = "Common" ∨ determineReportPreset ts = "Consistency"
        ∨ determineReportPreset ts = "Spelling" ∨ determineReportPreset ts = "Full" := by
      simpa using preset_mem ts
    rcases hcase with hr | hr | hr | hr <;> rw [hr] at h6 <;> revert h6 <;> decide
  refine ⟨?_, ?_, hno⟩
  · cases manual with
    | false =>
      rw [shape_auto]
      exact cmd_inorder_aux e f p (determineReportPreset ts)
        (" -result ".data ++ (d.data ++ "/temp_report.xlsx".data))
    | true =>
      have h := cmd_inorder_aux e f p (determineReportPreset ts) []
      rw [List.append_nil] at h
      rw [shape_manual]
      exact h
  · cases manual with
    | false =>
      refine iff_of_true ?_ rfl
      refine ⟨("\"" ++ e ++ "\" -files \"" ++ f ++ "\" -profile \"" ++ p ++
        "\" -startcheck -type " ++ determineReportPreset ts).data, ?_⟩
      have h1 : generate_qa_command d e f p ts false =
          "\"" ++ e ++ "\" -files \"" ++ f ++ "\" -profile \"" ++ p ++ "\" -startcheck -type " ++
            determineReportPreset ts ++ " -result " ++ (d ++ "/temp_report.xlsx") := rfl
      rw [h1]
      simp only [String.data_append, List.append_assoc]
    | true =>
      refine iff_of_false (fun hE => hno rfl ?_) (by simp)
      rcases hE with ⟨a, ha⟩
      refine ⟨a ++ [' '], [' '] ++ (d.data ++ "/temp_report.xlsx".data), ?_⟩
      rw [ha]
      simp only [String.data_append, List.append_assoc, List.cons_append,
        List.singleton_append, List.nil_append]

/--  Witness for C1 at the spec's example inputs, in both report modes.  -/
theorem c1_command_structure_witness :
    (¬ Occurs "-result".data "C:/v/verifika.exe".data)
    ∧ (EndsIn (" -result " ++ "C:/f" ++ "/temp_report.xlsx").data
        (generate_qa_command "C:/f" "C:/v/verifika.exe" "C:/f/temp_dir" "C:/p/x.vprofile"
          ["Full"] false).data ↔ false = false)
    ∧ (true = true → ¬ Occurs "-result".data
        (generate_qa_command "C:/f" "C:/v/verifika.exe" "C:/f/temp_dir" "C:/p/x.vprofile"
          ["Full"] true).data) :=
  ⟨by decide,
   (c1_command_structure "C:/f" "C:/v/verifika.exe" "C:/f/temp_dir" "C:/p/x.vprofile" ["Full"]
      false (by decide) (by decide) (by decide)).2.1,
   (c1_command_structure "C:/f" "C:/v/verifika.exe" "C:/f/temp_dir" "C:/p/x.vprofile" ["Full"]
      true (by decide) (by decide) (by decide)).2.2⟩

/--  The three always-quoted path arguments, for any shape tail.  -/
theorem cmd_quoted_aux (e f p rt : String) (tail : List Char) :
    Occurs ("\"" ++ e ++ "\"").data
      (qc :: (e.data ++ qc :: (" -files ".data ++ qc :: (f.data ++ qc :: (" -profile ".data ++
        qc :: (p.data ++ qc :: (" -startcheck -type ".data ++ (rt.data ++ tail))))))))
    ∧ Occurs ("\"" ++ f ++ "\"").data
      (qc :: (e.data ++ qc :: (" -files ".data ++ qc :: (f.data ++ qc :: (" -profile ".data ++
        qc :: (p.data ++ qc :: (" -startcheck -type ".data ++ (rt.data ++ tail))))))))
    ∧ Occurs ("\"" ++ p ++ "\"").data
      (qc :: (e.data ++ qc :: (" -files ".data ++ qc :: (f.data ++ qc :: (" -profile ".data ++
        qc :: (p.data ++ qc :: (" -startcheck -type ".data ++ (rt.data ++ tail)))))))) := by
  refine ⟨⟨[], " -files ".data ++ qc :: (f.data ++ qc :: (" -profile ".data ++
      qc :: (p.data ++ qc :: (" -startcheck -type ".data ++ (rt.data ++ tail))))), ?_⟩,
    ⟨[qc] ++ e.data ++ ([qc] ++ " -files ".data), " -profile ".data ++
      qc :: (p.data ++ qc :: (" -startcheck -type ".data ++ (rt.data ++ tail))), ?_⟩,
    ⟨[qc] ++ e.data ++ ([qc] ++ " -files ".data) ++ ([qc] ++ f.data) ++ ([qc] ++ " -profile ".data),
      " -startcheck -type ".data ++ (rt.data ++ tail), ?_⟩⟩ <;>
  simp only [String.data_append, qc, List.append_assoc, List.cons_append,
    List.singleton_append, List.nil_append]

/--  With an automatic result requested, the command ends in the bare
result path.  -/
theorem cmd_endsIn_result (d e f p : String) (ts : List String) :
    EndsIn (" -result " ++ d ++ "/temp_report.xlsx").data
      (generate_qa_command d e f p ts false).data := by
  refine ⟨("\"" ++ e ++ "\" -files \"" ++ f ++ "\" -profile \"" ++ p ++
    "\" -startcheck -type " ++ determineReportPreset ts).data, ?_⟩
  have h1 : generate_qa_command d e f p ts false =
      "\"" ++ e ++ "\" -files \"" ++ f ++ "\" -profile \"" ++ p ++ "\" -startcheck -type " ++
        determineReportPreset ts ++ " -result " ++ (d ++ "/temp_report.xlsx") := rfl
  rw [h1]
  simp only [String.data_append, List.append_assoc]

/--  With an automatic result requested, the command's last character is the
final letter of `temp_report.xlsx` (in particular not a quote).  -/
theorem cmd_getLast_result (d e f p : String) (ts : List String) :
    (generate_qa_command d e f p ts false).data.getLast? = some 'x' := by
  have hE : EndsIn "/temp_report.xlsx".data (generate_qa_command d e f p ts false).data := by
    refine ⟨("\"" ++ e ++ "\" -files \"" ++ f ++ "\" -profile \"" ++ p ++
      "\" -startcheck -type " ++ determineReportPreset ts ++ " -result ").data ++ d.data, ?_⟩
    have h1 : generate_qa_command d e f p ts false =
        "\"" ++ e ++ "\" -files \"" ++ f ++ "\" -profile \"" ++ p ++ "\" -startcheck -type " ++
          determineReportPreset ts ++ " -result " ++ (d ++ "/temp_report.xlsx") := rfl
    rw [h1]
    simp only [String.data_append, List.append_assoc]
  exact endsIn_getLast hE (by decide)

/--  C8 (amended): the executable, input and profile paths are quoted in the
generated command, but the `-result` path is appended bare — the command
ends in the unquoted result path and not in a quote-wrapped one.  -/
theorem c8_path_quoting (d e f p : String) (ts : List String) (manual : Bool) :
    Occurs ("\"" ++ e ++ "\"").data (generate_qa_command d e f p ts manual).data
    ∧ Occurs ("\"" ++ f ++ "\"").data (generate_qa_command d e f p ts manual).data
    ∧ Occurs ("\"" ++ p ++ "\"").data (generate_qa_command d e f p ts manual).data
    ∧ (manual = false →
        EndsIn (" -result " ++ d ++ "/temp_report.xlsx").data
          (generate_qa_command d e f p ts manual).data
        ∧ ¬ EndsIn ("\"" ++ (d ++ "/temp_report.xlsx") ++ "\"").data
          (generate_qa_command d e f p ts manual).data) := by
  have hq : ∀ X : String, ("\"" ++ X ++ "\"").data.getLast? = some qc := by
    intro X
    rw [String.data_append, List.getLast?_append]
    rfl
  have hmain : Occurs ("\"" ++ e ++ "\"").data (generate_qa_command d e f p ts manual).data
      ∧ Occurs ("\"" ++ f ++ "\"").data (generate_qa_command d e f p ts manual).data
      ∧ Occurs ("\"" ++ p ++ "\"").data (generate_qa_command d e f p ts manual).data := by
    cases manual with
    | false =>
      rw [shape_auto]
      exact cmd_quoted_aux e f p (determineReportPreset ts)
        (" -result ".data ++ (d.data ++ "/temp_report.xlsx".data))
    | true =>
      have h := cmd_quoted_aux e f p (determineReportPreset ts) []
      rw [List.append_nil] at h
      rw [shape_manual]
      exact h
  refine ⟨hmain.1, hmain.2.1, hmain.2.2, ?_⟩
  rintro rfl
  refine ⟨cmd_endsIn_result d e f p ts, fun hE => ?_⟩
  have h1 := cmd_getLast_result d e f p ts
  have h2 := endsIn_getLast hE (hq (d ++ "/temp_report.xlsx"))
  exact absurd (h1.symm.trans h2) (by decide)

/--  Counterexample to C8 as stated: with a space inside `files_dir`, the
result path appears in the command bare, and its quoted form appears
nowhere, so not every path argument is quoted.  -/
theorem c8_counterexample :
    Occurs (" -result C:/my files/temp_report.xlsx").data
      (generate_qa_command "C:/my files" "C:/v/verifika.exe" "C:/f/temp_dir"
        "C:/p/x.vprofile" ["Full"] false).data
    ∧ ¬ Occurs ("\"C:/my files/temp_report.xlsx\"").data
      (generate_qa_command "C:/my files" "C:/v/verifika.exe" "C:/f/temp_dir"
        "C:/p/x.vprofile" ["Full"] false).data := by
  constructor
  · decide
  · decide

/--  Witness for C8 (amended) at the spec's example inputs.  -/
theorem c8_path_quoting_witness :
    Occurs ("\"" ++ "C:/v/verifika.exe" ++ "\"").data
      (generate_qa_command "C:/f" "C:/v/verifika.exe" "C:/f/temp_dir" "C:/p/x.vprofile"
        ["Full"] false).data
    ∧ (EndsIn (" -result " ++ "C:/f" ++ "/temp_report.xlsx").data
        (generate_qa_command "C:/f" "C:/v/verifika.exe" "C:/f/temp_dir" "C:/p/x.vprofile"
          ["Full"] false).data
      ∧ ¬ EndsIn ("\"" ++ ("C:/f" ++ "/temp_report.xlsx") ++ "\"").data
        (generate_qa_command "C:/f" "C:/v/verifika.exe" "C:/f/temp_dir" "C:/p/x.vprofile"
          ["Full"] false).data) :=
  ⟨(c8_path_quoting "C:/f" "C:/v/verifika.exe" "C:/f/temp_dir" "C:/p/x.vprofile" ["Full"] false).1,
   (c8_path_quoting "C:/f" "C:/v/verifika.exe" "C:/f/temp_dir" "C:/p/x.vprofile" ["Full"]
      false).2.2.2 rfl⟩

/-!  ## Filesystem model for `file_processing.py` and the pipelines

The filesystem is a partial map from full paths to byte contents, plus the
set of existing directories.  Paths use `/` as separator; input files are
given as a (directory, filename) pair, matching how the repository derives
`files_dir` from `files[0]` and re-joins names.  -/

structure FS where
  read : String → Option (List Nat)
  dirs : List String

/--  The empty filesystem, used for concrete witnesses.  -/
def emptyFS : FS := ⟨fun _ => none, []⟩

/--  `p` lies strictly inside directory `d`.  -/
def underDir (d p : String) : Bool := prefB (d ++ "/").data p.data

structure FileId where
  dir : String
  name : String

def FileId.full (g : FileId) : String := g.dir ++ "/" ++ g.name

def FS.write (fs : FS) (p : String) (c : List Nat) : FS :=
  ⟨fun q => if q = p then some c else fs.read q, fs.dirs⟩

/--  Model of `os.remove`.  -/
def FS.removeFile (fs : FS) (p : String) : FS :=
  ⟨fun q => if q = p then none else fs.read q, fs.dirs⟩

/--  Removal of a directory tree: the directory, every directory below it
and every file below it disappear.  -/
def FS.removeTree (fs : FS) (d : String) : FS :=
  ⟨fun q => if underDir d q then none else fs.read q,
   fs.dirs.filter (fun x => x != d && !(underDir d x))⟩

/--  Model of `os.mkdir` / `Path.mkdir`: fails on an already existing
directory.  -/
def FS.mkdirE (fs : FS) (d : String) : Except Unit FS :=
  if fs.dirs.contains d then .error () else .ok ⟨fs.read, d :: fs.dirs⟩

/--  Model of `shutil.rmtree`.  `osFail` is an oracle for an OS-level
deletion failure (permission denied, file in use); with `ignore_errors`
set the failure is swallowed by `rmtree` itself (the tree is then modelled
as left in place), otherwise it raises `OSError`.  -/
def rmtree (fs : FS) (d : String) (ignore_errors : Bool) (osFail : Bool) : Except Unit FS :=
  if osFail then (if ignore_errors then .ok fs else .error ()) else .ok (fs.removeTree d)

/--  `delete_dir` from `file_processing.py` (lines 33-42):
`rmtree(dir, ignore_errors=True)` wrapped in `try/except OSError: pass`.  -/
def delete_dir (fs : FS) (dir : String) (osFail : Bool) : Except Unit FS :=
  match rmtree fs dir true osFail with
  | .ok fs2 => .ok fs2
  | .error _ => .ok fs

/--  Model of `shutil.copy`: read the source, write the destination
(overwriting it); raises when the source does not exist.  -/
def copyF (fs : FS) (src dst : String) : Except Unit FS :=
  match fs.read src with
  | some c => .ok (fs.write dst c)
  | none => .error ()

/--  `prepare_files` from `file_processing.py` (lines 5-30).  A single path
is returned unchanged; otherwise a fresh `temp_dir` beside the first file is
populated with a copy of every input.  `files[0]` on an empty list would
raise `IndexError`, modelled as an error.  Paths are assumed already
resolved, so `files[0].resolve().parent` is the first file's directory.  -/
def prepare_files (fs : FS) (files : List FileId) (osFail : Bool) :
    Except Unit (FS × String) :=
  match files with
  | [g] => .ok (fs, g.full)
  | [] => .error ()
  | g :: rest =>
    let files_dir := g.dir
    let temp_dir := files_dir ++ "/temp_dir"
    match delete_dir fs temp_dir osFail with
    | .error _ => .error ()
    | .ok fs1 =>
      match fs1.mkdirE temp_dir with
      | .error _ => .error ()
      | .ok fs2 =>
        ((g :: rest).foldlM
          (fun acc file => copyF acc file.full (temp_dir ++ "/" ++ file.name)) fs2).map
          (fun fs3 => (fs3, temp_dir))

/--  `manage_files` from `main.py` (lines 355-391).  Single file: the path
is returned untouched.  Multiple files: `temp_dir` is recreated and the
copies are taken from `files_dir + name` (this variant re-derives the
source path from the first file's directory).  -/
def manage_files (fs : FS) (files : List FileId) : Except Unit (FS × String) :=
  match files with
  | [] => .error ()
  | g :: rest =>
    let files_dir := g.dir
    let temp_dir := files_dir ++ "/temp_dir"
    if rest.isEmpty then
      .ok (fs, g.full)
    else
      let fs0 := if fs.dirs.contains temp_dir then fs.removeTree temp_dir else fs
      match fs0.mkdirE temp_dir with
      | .error _ => .error ()
      | .ok fs1 =>
        ((g :: rest).foldlM
          (fun acc file =>
            copyF acc (files_dir ++ "/" ++ file.name) (temp_dir ++ "/" ++ file.name)) fs1).map
          (fun fs2 => (fs2, temp_dir))

theorem string_append_cancel_left {a b c : String} (h : a ++ b = a ++ c) : b = c := by
  have hd : (a ++ b).data = (a ++ c).data := by rw [h]
  rw [String.data_append, String.data_append] at hd
  exact String.ext (List.append_cancel_left hd)

theorem underDir_append (d n : String) : underDir d (d ++ "/" ++ n) = true := by
  refine prefB_iff.mpr ⟨n.data, ?_⟩
  simp only [String.data_append, List.append_assoc]

theorem underDir_exists {d p : String} (h : underDir d p = true) :
    ∃ n : String, p = d ++ "/" ++ n := by
  rcases prefB_iff.mp h with ⟨t, ht⟩
  refine ⟨String.mk t, String.ext ?_⟩
  rw [ht]
  simp only [String.data_append, List.append_assoc]

theorem removeTree_read_not_under (fs : FS) (d q : String) (h : underDir d q = false) :
    (fs.removeTree d).read q = fs.read q := by
  show (if underDir d q then none else fs.read q) = fs.read q
  rw [h]
  rfl

theorem removeTree_read_under (fs : FS) (d q : String) (h : underDir d q = true) :
    (fs.removeTree d).read q = none := by
  show (if underDir d q then none else fs.read q) = none
  rw [h]
  rfl

theorem removeTree_dirs_self (fs : FS) (d : String) :
    ((fs.removeTree d).dirs.contains d) = false := by
  cases h : (fs.removeTree d).dirs.contains d with
  | false => rfl
  | true =>
    exfalso
    have hm : d ∈ (fs.removeTree d).dirs := by simpa using h
    have := (List.mem_filter.mp hm).2
    simp at this

theorem removeTree_dirs_under (fs : FS) (d x : String) (h : underDir d x = true) :
    ((fs.removeTree d).dirs.contains x) = false := by
  cases hc : (fs.removeTree d).dirs.contains x with
  | false => rfl
  | true =>
    exfalso
    have hm : x ∈ (fs.removeTree d).dirs := by simpa using hc
    have h2 := (List.mem_filter.mp hm).2
    rw [Bool.and_eq_true] at h2
    rw [h] at h2
    simp at h2

/--  The input file whose copy ends up at name `n`: the last list element
with that filename (later copies overwrite earlier ones).  -/
def lastWith (L : List FileId) (n : String) : Option FileId :=
  L.reverse.find? (fun g => g.name == n)

/--  Effect of the copy loop of `prepare_files`: outside `temp_dir` nothing
changes, inside `temp_dir` the file at name `n` holds the contents of the
last input file named `n`.  -/
theorem fold_copy (temp : String) :
    ∀ (L : List FileId) (s : FS),
    (∀ g ∈ L, underDir temp g.full = false) →
    (∀ g ∈ L, (s.read g.full).isSome = true) →
    ∃ s2, L.foldlM (fun acc file => copyF acc file.full (temp ++ "/" ++ file.name)) s = .ok s2
      ∧ (∀ q, underDir temp q = false → s2.read q = s.read q)
      ∧ (∀ n g2, lastWith L n = some g2 → s2.read (temp ++ "/" ++ n) = s.read g2.full)
      ∧ (∀ n, lastWith L n = none → s2.read (temp ++ "/" ++ n) = s.read (temp ++ "/" ++ n))
      ∧ s2.dirs = s.dirs := by
  intro L
  induction L with
  | nil =>
    intro s _ _
    exact ⟨s, rfl, fun q _ => rfl, fun n g2 h => by simp [lastWith] at h, fun n _ => rfl, rfl⟩
  | cons g L ih =>
    intro s hout hread
    obtain ⟨c, hc⟩ := Option.isSome_iff_exists.mp (hread g (List.mem_cons_self g L))
    have hstep : copyF s g.full (temp ++ "/" ++ g.name) =
        .ok (s.write (temp ++ "/" ++ g.name) c) := by
      simp [copyF, hc]
    have hdst : underDir temp (temp ++ "/" ++ g.name) = true := underDir_append temp g.name
    have hne_of_mem : ∀ g2 ∈ L, g2.full ≠ temp ++ "/" ++ g.name := by
      intro g2 hg2 he
      have h2 := hout g2 (List.mem_cons_of_mem _ hg2)
      rw [he, hdst] at h2
      exact Bool.noConfusion h2
    have hs1read : ∀ g2 ∈ L,
        (s.write (temp ++ "/" ++ g.name) c).read g2.full = s.read g2.full := by
      intro g2 hg2
      show (if g2.full = temp ++ "/" ++ g.name then some c else s.read g2.full) = _
      rw [if_neg (hne_of_mem g2 hg2)]
    have hread1 : ∀ g2 ∈ L,
        ((s.write (temp ++ "/" ++ g.name) c).read g2.full).isSome = true := by
      intro g2 hg2
      rw [hs1read g2 hg2]
      exact hread g2 (List.mem_cons_of_mem _ hg2)
    obtain ⟨s2, hfold, hq, hsome, hnone, hdirs⟩ :=
      ih (s.write (temp ++ "/" ++ g.name) c)
        (fun g2 hg2 => hout g2 (List.mem_cons_of_mem _ hg2)) hread1
    have hname_ne : ∀ n : String, g.name ≠ n → temp ++ "/" ++ n ≠ temp ++ "/" ++ g.name := by
      intro n hgn he
      exact hgn (string_append_cancel_left he).symm
    refine ⟨s2, ?_, ?_, ?_, ?_, ?_⟩
    · rw [List.foldlM_cons, hstep]
      exact hfold
    · intro q hq2
      rw [hq q hq2]
      show (if q = temp ++ "/" ++ g.name then some c else s.read q) = s.read q
      rw [if_neg]
      intro he
      rw [he, hdst] at hq2
      exact Bool.noConfusion hq2
    · intro n g2 hlast
      rw [lastWith, List.reverse_cons, List.find?_append] at hlast
      cases hf : List.find? (fun g3 => g3.name == n) L.reverse with
      | some g3 =>
        rw [hf] at hlast
        have hg32 : g3 = g2 := by
          have : some g3 = some g2 := hlast
          injection this
        subst hg32
        have hg3L : g3 ∈ L := by
          have := List.mem_of_find?_eq_some hf
          simpa using this
        rw [hsome n g3 hf]
        exact hs1read g3 hg3L
      | none =>
        rw [hf] at hlast
        have hsing : List.find? (fun g3 => g3.name == n) [g] = some g2 := hlast
        cases hgn : (g.name == n) with
        | true =>
          have hgeq : g = g2 := by
            simp only [List.find?_cons, hgn, cond_true] at hsing
            injection hsing
          have heqn : g.name = n := eq_of_beq hgn
          subst hgeq
          rw [hnone n hf]
          show (if temp ++ "/" ++ n = temp ++ "/" ++ g.name then some c else _) = _
          rw [heqn, if_pos rfl, hc]
        | false =>
          simp only [List.find?_cons, hgn, cond_false] at hsing
          exact Option.noConfusion hsing
    · intro n hlast
      rw [lastWith, List.reverse_cons, List.find?_append] at hlast
      cases hf : List.find? (fun g3 => g3.name == n) L.reverse with
      | some g3 =>
        rw [hf] at hlast
        exact Option.noConfusion hlast
      | none =>
        rw [hf] at hlast
        have hsing : List.find? (fun g3 => g3.name == n) [g] = none := hlast
        have hgn : (g.name == n) = false := by
          cases hgn2 : (g.name == n) with
          | false => rfl
          | true =>
            simp only [List.find?_cons, hgn2, cond_true] at hsing
            exact Option.noConfusion hsing
        rw [hnone n hf]
        show (if temp ++ "/" ++ n = temp ++ "/" ++ g.name then some c else _) = _
        rw [if_neg (hname_ne n (by simpa using hgn))]
    · exact hdirs

theorem lastWith_mem {L : List FileId} {n : String} {h2 : FileId}
    (h : lastWith L n = some h2) : h2 ∈ L := by
  have := List.mem_of_find?_eq_some h
  simpa using this

/--  Full behaviour of `prepare_files` on two or more input files (with the
deletion oracle reporting no OS failure): it returns the fresh
`<files_dir>/temp_dir`, leaves everything outside `temp_dir` untouched, and
inside `temp_dir` the file at name `n` holds the bytes of the last input
named `n`; nothing else survives under `temp_dir`.  -/
theorem prepare_files_spec (fs : FS) (g r1 : FileId) (rrest : List FileId)
    (hout : ∀ h ∈ g :: r1 :: rrest, underDir (g.dir ++ "/temp_dir") h.full = false)
    (hread : ∀ h ∈ g :: r1 :: rrest, (fs.read h.full).isSome = true) :
    ∃ fs2, prepare_files fs (g :: r1 :: rrest) false = .ok (fs2, g.dir ++ "/temp_dir")
      ∧ fs2.dirs = (g.dir ++ "/temp_dir") :: (fs.removeTree (g.dir ++ "/temp_dir")).dirs
      ∧ (∀ q, underDir (g.dir ++ "/temp_dir") q = false → fs2.read q = fs.read q)
      ∧ (∀ n h2, lastWith (g :: r1 :: rrest) n = some h2 →
          fs2.read ((g.dir ++ "/temp_dir") ++ "/" ++ n) = fs.read h2.full)
      ∧ (∀ n, lastWith (g :: r1 :: rrest) n = none →
          fs2.read ((g.dir ++ "/temp_dir") ++ "/" ++ n) = none) := by
  have hro : ∀ h ∈ g :: r1 :: rrest,
      (fs.removeTree (g.dir ++ "/temp_dir")).read h.full = fs.read h.full :=
    fun h hm => removeTree_read_not_under fs _ _ (hout h hm)
  have hnotmem : (g.dir ++ "/temp_dir") ∉ (fs.removeTree (g.dir ++ "/temp_dir")).dirs := by
    intro hm
    have := (List.mem_filter.mp hm).2
    simp at this
  have hmk : (fs.removeTree (g.dir ++ "/temp_dir")).mkdirE (g.dir ++ "/temp_dir") =
      .ok ⟨(fs.removeTree (g.dir ++ "/temp_dir")).read,
           (g.dir ++ "/temp_dir") :: (fs.removeTree (g.dir ++ "/temp_dir")).dirs⟩ := by
    simp [FS.mkdirE, hnotmem]
  obtain ⟨fs2, hfold, hq, hsome, hnone, hdirs⟩ :=
    fold_copy (g.dir ++ "/temp_dir") (g :: r1 :: rrest)
      ⟨(fs.removeTree (g.dir ++ "/temp_dir")).read,
       (g.dir ++ "/temp_dir") :: (fs.removeTree (g.dir ++ "/temp_dir")).dirs⟩
      hout
      (fun h hm => by
        show ((fs.removeTree (g.dir ++ "/temp_dir")).read h.full).isSome = true
        rw [hro h hm]
        exact hread h hm)
  refine ⟨fs2, ?_, ?_, ?_, ?_, ?_⟩
  · show (match (fs.removeTree (g.dir ++ "/temp_dir")).mkdirE (g.dir ++ "/temp_dir") with
      | .error _ => Except.error ()
      | .ok fsb => ((g :: r1 :: rrest).foldlM
          (fun acc file => copyF acc file.full ((g.dir ++ "/temp_dir") ++ "/" ++ file.name)) fsb).map
          (fun fs3 => (fs3, g.dir ++ "/temp_dir"))) = Except.ok (fs2, g.dir ++ "/temp_dir")
    rw [hmk]
    show ((g :: r1 :: rrest).foldlM
        (fun acc file => copyF acc file.full ((g.dir ++ "/temp_dir") ++ "/" ++ file.name))
        ⟨(fs.removeTree (g.dir ++ "/temp_dir")).read,
         (g.dir ++ "/temp_dir") :: (fs.removeTree (g.dir ++ "/temp_dir")).dirs⟩).map
        (fun fs3 => (fs3, g.dir ++ "/temp_dir")) = Except.ok (fs2, g.dir ++ "/temp_dir")
    rw [hfold]
    rfl
  · exact hdirs
  · intro q hq2
    rw [hq q hq2]
    exact removeTree_read_not_under fs _ _ hq2
  · intro n h2 hlast
    rw [hsome n h2 hlast]
    exact hro h2 (lastWith_mem hlast)
  · intro n hlast
    rw [hnone n hlast]
    exact removeTree_read_under fs _ _ (underDir_append _ n)

theorem find_name_unique : ∀ (M : List FileId), (M.map FileId.name).Nodup →
    ∀ h2 ∈ M, M.find? (fun x => x.name == h2.name) = some h2 := by
  intro M
  induction M with
  | nil =>
    intro _ h2 hm
    exact absurd hm (List.not_mem_nil _)
  | cons a M ih =>
    intro hnd h2 hm
    have hnd2 : (∀ x ∈ M, ¬ x.name = a.name) ∧ (M.map FileId.name).Nodup := by
      simpa using hnd
    cases ha : (a.name == h2.name) with
    | true =>
      have han : a.name = h2.name := eq_of_beq ha
      have ha2 : h2 = a := by
        rcases List.mem_cons.mp hm with rfl | hm2
        · rfl
        · exact absurd han.symm (hnd2.1 h2 hm2)
      subst ha2
      simp [List.find?_cons]
    | false =>
      have hne : h2 ≠ a := by
        intro he
        rw [he] at ha
        simp at ha
      have hm2 : h2 ∈ M := by
        rcases List.mem_cons.mp hm with rfl | hm2
        · exact absurd rfl hne
        · exact hm2
      simp only [List.find?_cons, ha, cond_false]
      exact ih hnd2.2 h2 hm2

theorem lastWith_nodup {L : List FileId} (hnd : (L.map FileId.name).Nodup) {h2 : FileId}
    (hm : h2 ∈ L) : lastWith L h2.name = some h2 := by
  have hndr : (L.reverse.map FileId.name).Nodup := by
    rw [List.map_reverse]
    exact List.nodup_reverse.mpr hnd
  exact find_name_unique L.reverse hndr h2 (List.mem_reverse.mpr hm)

/--  C5: on two or more input files, consolidation deletes any stale
`temp_dir` beside the first file, creates it afresh, copies every input into
it under its own filename (a later duplicate filename silently overwriting
an earlier one), returns the `temp_dir` path, and touches nothing outside
`temp_dir`; with pairwise distinct filenames the directory holds exactly one
copy of each input, byte-identical to its source.  -/
theorem c5_input_consolidation (fs : FS) (g r1 : FileId) (rrest : List FileId)
    (hout : ∀ h ∈ g :: r1 :: rrest, underDir (g.dir ++ "/temp_dir") h.full = false)
    (hread : ∀ h ∈ g :: r1 :: rrest, (fs.read h.full).isSome = true) :
    ∃ fs2, prepare_files fs (g :: r1 :: rrest) false = .ok (fs2, g.dir ++ "/temp_dir")
      ∧ (g.dir ++ "/temp_dir") ∈ fs2.dirs
      ∧ (∀ q, underDir (g.dir ++ "/temp_dir") q = false → fs2.read q = fs.read q)
      ∧ (∀ n h2, lastWith (g :: r1 :: rrest) n = some h2 →
          fs2.read ((g.dir ++ "/temp_dir") ++ "/" ++ n) = fs.read h2.full)
      ∧ (∀ n, lastWith (g :: r1 :: rrest) n = none →
          fs2.read ((g.dir ++ "/temp_dir") ++ "/" ++ n) = none)
      ∧ (((g :: r1 :: rrest).map FileId.name).Nodup →
          ∀ h2 ∈ g :: r1 :: rrest,
            fs2.read ((g.dir ++ "/temp_dir") ++ "/" ++ h2.name) = fs.read h2.full) := by
  obtain ⟨fs2, hok, hdirs, houtside, hsome, hnone⟩ := prepare_files_spec fs g r1 rrest hout hread
  refine ⟨fs2, hok, ?_, houtside, hsome, hnone, ?_⟩
  · rw [hdirs]
    exact List.mem_cons_self _ _
  · intro hnd h2 hm
    exact hsome h2.name h2 (lastWith_nodup hnd hm)

/--  A tiny concrete filesystem holding two input files, used as witness.  -/
def fsW : FS :=
  ⟨fun q => if q = "C:/f/a.xliff" then some [1] else if q = "C:/f/b.xliff" then some [2] else none,
   ["C:/f"]⟩

/--  Witness for C5 on a concrete two-file consolidation.  -/
theorem c5_input_consolidation_witness :
    ((∀ h ∈ FileId.mk "C:/f" "a.xliff" :: FileId.mk "C:/f" "b.xliff" :: ([] : List FileId),
        underDir ((FileId.mk "C:/f" "a.xliff").dir ++ "/temp_dir") h.full = false)
      ∧ (∀ h ∈ FileId.mk "C:/f" "a.xliff" :: FileId.mk "C:/f" "b.xliff" :: ([] : List FileId),
        (fsW.read h.full).isSome = true))
    ∧ (∃ fs2, prepare_files fsW
          (FileId.mk "C:/f" "a.xliff" :: FileId.mk "C:/f" "b.xliff" :: []) false =
          .ok (fs2, (FileId.mk "C:/f" "a.xliff").dir ++ "/temp_dir")
        ∧ ((FileId.mk "C:/f" "a.xliff").dir ++ "/temp_dir") ∈ fs2.dirs
        ∧ (∀ q, underDir ((FileId.mk "C:/f" "a.xliff").dir ++ "/temp_dir") q = false →
            fs2.read q = fsW.read q)
        ∧ (∀ n h2, lastWith (FileId.mk "C:/f" "a.xliff" :: FileId.mk "C:/f" "b.xliff" :: []) n =
              some h2 →
            fs2.read (((FileId.mk "C:/f" "a.xliff").dir ++ "/temp_dir") ++ "/" ++ n) =
              fsW.read h2.full)
        ∧ (∀ n, lastWith (FileId.mk "C:/f" "a.xliff" :: FileId.mk "C:/f" "b.xliff" :: []) n =
              none →
            fs2.read (((FileId.mk "C:/f" "a.xliff").dir ++ "/temp_dir") ++ "/" ++ n) = none)
        ∧ (((FileId.mk "C:/f" "a.xliff" :: FileId.mk "C:/f" "b.xliff" :: ([] : List FileId)).map
              FileId.name).Nodup →
            ∀ h2 ∈ FileId.mk "C:/f" "a.xliff" :: FileId.mk "C:/f" "b.xliff" :: ([] : List FileId),
              fs2.read (((FileId.mk "C:/f" "a.xliff").dir ++ "/temp_dir") ++ "/" ++ h2.name) =
                fsW.read h2.full)) :=
  ⟨⟨by decide, by decide⟩,
   c5_input_consolidation fsW (FileId.mk "C:/f" "a.xliff") (FileId.mk "C:/f" "b.xliff") []
     (by decide) (by decide)⟩

/--  C6: a single-element selection is returned unchanged by both
consolidation variants, and the filesystem value is untouched (the very same
state is returned).  -/
theorem c6_single_path (fs : FS) (g : FileId) (osFail : Bool) :
    prepare_files fs [g] osFail = .ok (fs, g.full)
    ∧ manage_files fs [g] = .ok (fs, g.full) :=
  ⟨rfl, rfl⟩

/--  C10: `delete_dir` always returns normally — for an existing directory,
a missing directory (removal of a missing tree is a no-op in the model) and
an OS-level deletion failure alike; no exception reaches the caller.  -/
theorem c10_delete_dir_total (fs : FS) (dir : String) (osFail : Bool) :
    ∃ fs2, delete_dir fs dir osFail = .ok fs2
      ∧ (osFail = false → fs2 = fs.removeTree dir) := by
  cases osFail with
  | false => exact ⟨fs.removeTree dir, rfl, fun _ => rfl⟩
  | true => exact ⟨fs, rfl, fun h => Bool.noConfusion h⟩

/--  Witness for C10 in both the failing and the non-failing case.  -/
theorem c10_delete_dir_total_witness :
    (∃ fs2, delete_dir emptyFS "C:/f/temp_dir" true = .ok fs2
      ∧ (true = false → fs2 = emptyFS.removeTree "C:/f/temp_dir"))
    ∧ (∃ fs2, delete_dir emptyFS "C:/f/temp_dir" false = .ok fs2
      ∧ (false = false → fs2 = emptyFS.removeTree "C:/f/temp_dir")) :=
  ⟨c10_delete_dir_total emptyFS "C:/f/temp_dir" true,
   c10_delete_dir_total emptyFS "C:/f/temp_dir" false⟩

/-!  ## Orchestration pipelines of `verifika.py` and `old_verifika.py`

Both drivers run, in source order: `prepare_files`, command construction,
`delete_dir`, and only then `run_qa_command`.  The pipeline functions below
return the filesystem state reached just before `run_qa_command` spawns the
engine process, together with the command string and the `files_to_check`
path handed to the engine.  -/

/--  `verifika` from `verifika.py` (lines 52-61), GUI steps elided: it
deletes `Path(files_dir, "temp_dir")` after building the command and before
running it.  -/
def verifika_pipeline (fs : FS) (files : List FileId) (files_dir exe profile : String)
    (error_types : List String) (manual_report : Bool) :
    Except Unit (FS × String × String) :=
  match prepare_files fs files false with
  | .error _ => .error ()
  | .ok (fs1, files_to_check) =>
    let cmd := generate_qa_command files_dir exe files_to_check profile error_types manual_report
    match delete_dir fs1 (files_dir ++ "/temp_dir") false with
    | .error _ => .error ()
    | .ok fs2 => .ok (fs2, cmd, files_to_check)

/--  `verifika` from `old_verifika.py` (lines 110-120), GUI steps elided: it
passes `files_dir` itself — not its `temp_dir` subdirectory — to
`delete_dir`, again between command construction and the engine run.  -/
def old_verifika_pipeline (fs : FS) (files : List FileId) (files_dir exe profile : String)
    (error_types : List String) (manual_optimization : Bool) :
    Except Unit (FS × String × String) :=
  match prepare_files fs files false with
  | .error _ => .error ()
  | .ok (fs1, files_to_check) =>
    let cmd := generate_cmd_command files_dir exe files_to_check profile error_types
      manual_optimization
    match delete_dir fs1 files_dir false with
    | .error _ => .error ()
    | .ok fs2 => .ok (fs2, cmd, files_to_check)

theorem under_temp_under_dir (d q : String)
    (h : underDir (d ++ "/temp_dir") q = true) : underDir d q = true := by
  rcases underDir_exists h with ⟨n, rfl⟩
  refine prefB_iff.mpr ⟨"temp_dir/".data ++ n.data, ?_⟩
  simp only [String.data_append, List.append_assoc, List.cons_append, List.nil_append]

theorem temp_dir_split (d : String) : d ++ "/temp_dir" = d ++ "/" ++ "temp_dir" := by
  rw [String.append_assoc]
  rfl

/--  C9: in both drivers the cleanup deletion runs between command
construction and the engine invocation; at the moment the engine would be
spawned, the multi-file `-files` path (the fresh `temp_dir`) no longer
exists — `verifika.py` deletes `temp_dir` itself, `old_verifika.py` deletes
the whole parent `files_dir`.  -/
theorem c9_cleanup_before_run (fs : FS) (g r1 : FileId) (rrest : List FileId)
    (exe profile : String) (error_types : List String) (manual : Bool)
    (hout : ∀ h ∈ g :: r1 :: rrest, underDir (g.dir ++ "/temp_dir") h.full = false)
    (hread : ∀ h ∈ g :: r1 :: rrest, (fs.read h.full).isSome = true) :
    (∃ fs2, verifika_pipeline fs (g :: r1 :: rrest) g.dir exe profile error_types manual =
        .ok (fs2, generate_qa_command g.dir exe (g.dir ++ "/temp_dir") profile error_types manual,
          g.dir ++ "/temp_dir")
      ∧ (fs2.dirs.contains (g.dir ++ "/temp_dir")) = false
      ∧ (∀ q, underDir (g.dir ++ "/temp_dir") q = true → fs2.read q = none))
    ∧ (∃ fs3, old_verifika_pipeline fs (g :: r1 :: rrest) g.dir exe profile error_types manual =
        .ok (fs3, generate_cmd_command g.dir exe (g.dir ++ "/temp_dir") profile error_types manual,
          g.dir ++ "/temp_dir")
      ∧ (fs3.dirs.contains g.dir) = false
      ∧ (fs3.dirs.contains (g.dir ++ "/temp_dir")) = false
      ∧ (∀ q, underDir g.dir q = true → fs3.read q = none)
      ∧ (∀ q, underDir (g.dir ++ "/temp_dir") q = true → fs3.read q = none)) := by
  obtain ⟨fsmid, hok, _, _, _, _⟩ := prepare_files_spec fs g r1 rrest hout hread
  constructor
  · refine ⟨fsmid.removeTree (g.dir ++ "/temp_dir"), ?_, ?_, ?_⟩
    · show (match prepare_files fs (g :: r1 :: rrest) false with
        | .error _ => Except.error ()
        | .ok (fs1, files_to_check) =>
          match delete_dir fs1 (g.dir ++ "/temp_dir") false with
          | .error _ => Except.error ()
          | .ok fs2 => Except.ok (fs2,
              generate_qa_command g.dir exe files_to_check profile error_types manual,
              files_to_check)) = _
      rw [hok]
      rfl
    · exact removeTree_dirs_self fsmid _
    · exact fun q hq => removeTree_read_under fsmid _ q hq
  · refine ⟨fsmid.removeTree g.dir, ?_, ?_, ?_, ?_, ?_⟩
    · show (match prepare_files fs (g :: r1 :: rrest) false with
        | .error _ => Except.error ()
        | .ok (fs1, files_to_check) =>
          match delete_dir fs1 g.dir false with
          | .error _ => Except.error ()
          | .ok fs2 => Except.ok (fs2,
              generate_cmd_command g.dir exe files_to_check profile error_types manual,
              files_to_check)) = _
      rw [hok]
      rfl
    · exact removeTree_dirs_self fsmid _
    · refine removeTree_dirs_under fsmid _ _ ?_
      rw [temp_dir_split]
      exact underDir_append g.dir "temp_dir"
    · exact fun q hq => removeTree_read_under fsmid _ q hq
    · exact fun q hq => removeTree_read_under fsmid _ q (under_temp_under_dir g.dir q hq)

/--  Witness for C9 on the concrete two-file filesystem.  -/
theorem c9_cleanup_before_run_witness :
    ((∀ h ∈ FileId.mk "C:/f" "a.xliff" :: FileId.mk "C:/f" "b.xliff" :: ([] : List FileId),
        underDir ((FileId.mk "C:/f" "a.xliff").dir ++ "/temp_dir") h.full = false)
      ∧ (∀ h ∈ FileId.mk "C:/f" "a.xliff" :: FileId.mk "C:/f" "b.xliff" :: ([] : List FileId),
        (fsW.read h.full).isSome = true))
    ∧ (∃ fs2, verifika_pipeline fsW
          (FileId.mk "C:/f" "a.xliff" :: FileId.mk "C:/f" "b.xliff" :: [])
          (FileId.mk "C:/f" "a.xliff").dir "C:/v/verifika.exe" "C:/p/x.vprofile" ["Full"] false =
        .ok (fs2, generate_qa_command (FileId.mk "C:/f" "a.xliff").dir "C:/v/verifika.exe"
            ((FileId.mk "C:/f" "a.xliff").dir ++ "/temp_dir") "C:/p/x.vprofile" ["Full"] false,
          (FileId.mk "C:/f" "a.xliff").dir ++ "/temp_dir")
      ∧ (fs2.dirs.contains ((FileId.mk "C:/f" "a.xliff").dir ++ "/temp_dir")) = false
      ∧ (∀ q, underDir ((FileId.mk "C:/f" "a.xliff").dir ++ "/temp_dir") q = true →
          fs2.read q = none)) :=
  ⟨⟨by decide, by decide⟩,
   (c9_cleanup_before_run fsW (FileId.mk "C:/f" "a.xliff") (FileId.mk "C:/f" "b.xliff") []
      "C:/v/verifika.exe" "C:/p/x.vprofile" ["Full"] false (by decide) (by decide)).1⟩

/-!  ## Workbook model and the sheet-filtering loop of
`process_and_save_report` (`main.py` lines 457-464)  -/

structure Sheet where
  name : String
  max_row : Nat

/--  `wb_verifika.remove(sheet)` for the sheet fetched under name `n`
(sheet names are unique in a real workbook).  -/
def removeSheet (wb : List Sheet) (n : String) : List Sheet :=
  wb.filter (fun s => s.name != n)

/--  A sheet survives the loop when its row count is at least 12 and it is
not cut by the non-`Full` selection test; this is the negation of the two
removal conditions in the loop body.  -/
def keepP (sheets_to_keep : List String) (s : Sheet) : Bool :=
  !(decide (s.max_row < 12) || (!(sheets_to_keep.contains "Full")
    && !(sheets_to_keep.contains s.name)))

/--  One iteration of the loop: `sheet = wb_verifika[sheet_name]` (a
`KeyError` when the name is absent), then the two removal tests.  -/
def sheetStep (sheets_to_keep : List String) (wb : List Sheet) (n : String) :
    Except Unit (List Sheet) :=
  match wb.find? (fun s => s.name == n) with
  | none => .error ()
  | some sheet =>
    if sheet.max_row < 12 then .ok (removeSheet wb n)
    else if !(sheets_to_keep.contains "Full") && !(sheets_to_keep.contains n) then
      .ok (removeSheet wb n)
    else .ok wb

/--  The loop `for sheet_name in wb_verifika.sheetnames:` iterates over the
snapshot of sheet names taken at loop entry while removing sheets from the
workbook.  -/
def filterSheets (sheets_to_keep : List String) (wb : List Sheet) :
    Except Unit (List Sheet) :=
  (wb.map Sheet.name).foldlM (sheetStep sheets_to_keep) wb

theorem sheetStep_eq (keep : List String) (acc : List Sheet) (n : String) (s0 : Sheet)
    (hfind : acc.find? (fun s => s.name == n) = some s0) :
    sheetStep keep acc n = .ok (if keepP keep s0 = true then acc else removeSheet acc n) := by
  have hs0name : s0.name = n := by
    have h := List.find?_some hfind
    simpa using h
  unfold sheetStep
  rw [hfind]
  show (if s0.max_row < 12 then Except.ok (removeSheet acc n)
    else if (!keep.contains "Full" && !keep.contains n) = true then
      Except.ok (removeSheet acc n)
    else Except.ok acc) = Except.ok (if keepP keep s0 = true then acc else removeSheet acc n)
  by_cases hrow : s0.max_row < 12
  · have hk : keepP keep s0 = false := by simp [keepP, hrow]
    rw [if_pos hrow, hk]
    rfl
  · rw [if_neg hrow]
    cases hful : keep.contains "Full" with
    | true =>
      have hk : keepP keep s0 = true := by
        simp [keepP, hrow]
        exact Or.inl (by simpa using hful)
      rw [hk]
      simp [hful]
    | false =>
      cases hname : keep.contains n with
      | true =>
        have hk : keepP keep s0 = true := by
          simp [keepP, hrow, hs0name]
          exact Or.inr (by simpa using hname)
        rw [hk]
        simp [hful, hname]
      | false =>
        have hk : keepP keep s0 = false := by
          simp [keepP, hrow, hs0name]
          exact ⟨by simpa using hful, by simpa using hname⟩
        rw [hk]
        simp [hful, hname]

/--  Running the loop body over a duplicate-free list of names, each present
in the workbook, filters exactly the sheets whose names are listed, by the
keep predicate.  -/
theorem foldl_sheetStep (keep : List String) :
    ∀ (ns : List String) (acc : List Sheet),
    (acc.map Sheet.name).Nodup → ns.Nodup →
    (∀ n ∈ ns, n ∈ acc.map Sheet.name) →
    ns.foldlM (sheetStep keep) acc =
      .ok (acc.filter (fun s => if ns.contains s.name then keepP keep s else true)) := by
  intro ns
  induction ns with
  | nil =>
    intro acc _ _ _
    have hfe : acc.filter
        (fun s => if ([] : List String).contains s.name then keepP keep s else true) = acc :=
      List.filter_eq_self.mpr (fun s _ => by simp)
    show Except.ok acc = _
    rw [hfe]
  | cons n ns ih =>
    intro acc hnd hns hmem
    have hmemn : n ∈ acc.map Sheet.name := hmem n (List.mem_cons_self _ _)
    obtain ⟨s0, hs0acc, hs0n⟩ := List.mem_map.mp hmemn
    have hfind : ∃ t0, acc.find? (fun s => s.name == n) = some t0 := by
      cases hf : acc.find? (fun s => s.name == n) with
      | some t0 => exact ⟨t0, rfl⟩
      | none =>
        exfalso
        have := List.find?_eq_none.mp hf s0 hs0acc
        simp [hs0n] at this
    obtain ⟨t0, hf⟩ := hfind
    have ht0name : t0.name = n := by
      have h := List.find?_some hf
      simpa using h
    have ht0acc : t0 ∈ acc := List.mem_of_find?_eq_some hf
    have huniq : ∀ s ∈ acc, s.name = n → s = t0 := by
      intro s hs hsn
      exact List.inj_on_of_nodup_map hnd hs ht0acc (by rw [hsn, ht0name])
    have hstep := sheetStep_eq keep acc n t0 hf
    have hns2 : ns.Nodup := (List.nodup_cons.mp hns).2
    have hnns : n ∉ ns := (List.nodup_cons.mp hns).1
    rw [List.foldlM_cons, hstep]
    cases hkp : keepP keep t0 with
    | true =>
      have hih := ih acc hnd hns2 (fun n2 hn2 => hmem n2 (List.mem_cons_of_mem _ hn2))
      show ns.foldlM (sheetStep keep) acc = _
      rw [hih]
      refine congrArg Except.ok (List.filter_congr ?_)
      intro s hs
      by_cases hsn : s.name = n
      · have hseq : s = t0 := huniq s hs hsn
        rw [hseq, ht0name]
        simp [hkp, hnns]
      · simp [List.contains_cons, hsn]
    | false =>
      have hsub : (removeSheet acc n).Sublist acc := List.filter_sublist _
      have hnd' : ((removeSheet acc n).map Sheet.name).Nodup :=
        hnd.sublist (hsub.map Sheet.name)
      have hmem' : ∀ n2 ∈ ns, n2 ∈ (removeSheet acc n).map Sheet.name := by
        intro n2 hn2
        have hne : n2 ≠ n := fun he => hnns (he ▸ hn2)
        obtain ⟨s2, hs2acc, hs2n⟩ := List.mem_map.mp (hmem n2 (List.mem_cons_of_mem _ hn2))
        refine List.mem_map.mpr ⟨s2, List.mem_filter.mpr ⟨hs2acc, ?_⟩, hs2n⟩
        simp [hs2n, hne]
      have hih := ih (removeSheet acc n) hnd' hns2 hmem'
      show ns.foldlM (sheetStep keep) (removeSheet acc n) = _
      rw [hih]
      refine congrArg Except.ok ?_
      rw [removeSheet, List.filter_filter]
      refine List.filter_congr ?_
      intro s hs
      by_cases hsn : s.name = n
      · have hseq : s = t0 := huniq s hs hsn
        simp [hsn, hseq, ht0name, hkp]
      · simp [List.contains_cons, hsn]

/--  On a workbook with duplicate-free sheet names (an invariant of real
workbooks) the removal loop is exactly a filter by the keep predicate.  -/
theorem filterSheets_spec (keep : List String) (wb : List Sheet)
    (hnd : (wb.map Sheet.name).Nodup) :
    filterSheets keep wb = .ok (wb.filter (keepP keep)) := by
  have h := foldl_sheetStep keep (wb.map Sheet.name) wb hnd hnd (fun n hn => hn)
  rw [filterSheets, h]
  refine congrArg Except.ok (List.filter_congr ?_)
  intro s hs
  have hmm : s.name ∈ wb.map Sheet.name := List.mem_map_of_mem _ hs
  simp [hmm, keepP]

/--  C2: a sheet is removed exactly when its row count is below 12 or the
selection does not include `Full` and does not list the sheet's name; with
the `Full` selection only the under-12 stub sheets are removed.  -/
theorem c2_report_filtering (keep : List String) (wb : List Sheet)
    (hnd : (wb.map Sheet.name).Nodup) :
    filterSheets keep wb = .ok (wb.filter (fun s =>
      !(decide (s.max_row < 12) || (!(keep.contains "Full") && !(keep.contains s.name)))))
    ∧ (keep.contains "Full" = true →
        filterSheets keep wb = .ok (wb.filter (fun s => decide (12 ≤ s.max_row)))) := by
  refine ⟨filterSheets_spec keep wb hnd, ?_⟩
  intro hful
  rw [filterSheets_spec keep wb hnd]
  refine congrArg Except.ok (List.filter_congr ?_)
  intro s _
  by_cases hrow : s.max_row < 12
  · have hle : ¬ 12 ≤ s.max_row := Nat.not_le.mpr hrow
    simp [keepP, hrow, hle]
  · have hle : 12 ≤ s.max_row := Nat.not_lt.mp hrow
    simp [keepP, hrow, hle]
    exact Or.inl (by simpa using hful)

/--  Witness for C2: the spec's example workbook with the `Common Errors`
selection keeps exactly the `Common Errors` sheet.  -/
theorem c2_report_filtering_witness :
    (([Sheet.mk "Header" 5, Sheet.mk "Common Errors" 20,
        Sheet.mk "Empty Stub" 3].map Sheet.name)).Nodup
    ∧ filterSheets ["Common Errors"]
        [Sheet.mk "Header" 5, Sheet.mk "Common Errors" 20, Sheet.mk "Empty Stub" 3] =
      .ok [Sheet.mk "Common Errors" 20] :=
  ⟨by decide, by
    rw [(c2_report_filtering ["Common Errors"]
      [Sheet.mk "Header" 5, Sheet.mk "Common Errors" 20, Sheet.mk "Empty Stub" 3]
      (by decide)).1]
    rfl⟩

/-!  ## `run_qa` (`main.py` lines 394-446) and
`process_and_save_report` (`main.py` lines 449-493)  -/

theorem temp_report_not_under (files_dir : String) :
    underDir (files_dir ++ "/temp_dir") (files_dir ++ "/temp_report.xlsx") = false := by
  cases h : underDir (files_dir ++ "/temp_dir") (files_dir ++ "/temp_report.xlsx") with
  | false => rfl
  | true =>
    exfalso
    rcases prefB_iff.mp h with ⟨t, ht⟩
    simp only [String.data_append, List.append_assoc] at ht
    have h2 := List.append_cancel_left ht
    simp at h2

inductive RunOutcome where
  | no_report_exit
  | no_action
  | report_processed
deriving DecidableEq

/--  `run_qa` after the engine invocation: `Popen`/`wait` is the opaque
`engine` state transformer; then `temp_dir` is removed if present, and the
presence of `temp_report.xlsx` decides what happens.  `no_report_exit` is
the "No errors were found" notice followed by `sys.exit()` (a clean
termination, not an error); `no_action` is manual mode, where the function
simply returns; `report_processed` means `process_and_save_report` is
invoked on the report file.  -/
def run_qa (fs : FS) (files_dir : String) (engine : FS → FS)
    (manual_optimization : Bool) : FS × RunOutcome :=
  let temp_report_name := files_dir ++ "/temp_report.xlsx"
  let fs1 := engine fs
  let temp_dir := files_dir ++ "/temp_dir"
  let fs2 := if fs1.dirs.contains temp_dir then fs1.removeTree temp_dir else fs1
  if !(fs2.read temp_report_name).isSome then
    if !manual_optimization then (fs2, .no_report_exit) else (fs2, .no_action)
  else (fs2, .report_processed)

/--  C7: after the engine exits, a missing `temp_report.xlsx` gives the
benign "no errors found" exit in automatic mode and nothing at all in
manual mode; when the file exists, report consolidation proceeds on it.  -/
theorem c7_missing_report (fs : FS) (files_dir : String) (engine : FS → FS) :
    (((engine fs).read (files_dir ++ "/temp_report.xlsx")) = none →
      (run_qa fs files_dir engine false).2 = .no_report_exit
      ∧ (run_qa fs files_dir engine true).2 = .no_action)
    ∧ (∀ manual, ((engine fs).read (files_dir ++ "/temp_report.xlsx")).isSome = true →
      (run_qa fs files_dir engine manual).2 = .report_processed) := by
  have hkey : (if (engine fs).dirs.contains (files_dir ++ "/temp_dir") then
        (engine fs).removeTree (files_dir ++ "/temp_dir") else engine fs).read
        (files_dir ++ "/temp_report.xlsx") =
      (engine fs).read (files_dir ++ "/temp_report.xlsx") := by
    cases hdir : (engine fs).dirs.contains (files_dir ++ "/temp_dir") with
    | true =>
      simp only [hdir, if_true]
      exact removeTree_read_not_under _ _ _ (temp_report_not_under files_dir)
    | false =>
      simp [hdir]
  constructor
  · intro hnone
    constructor
    · simp only [run_qa, hkey, hnone]
      rfl
    · simp only [run_qa, hkey, hnone]
      rfl
  · intro manual hsome
    simp only [run_qa, hkey, hsome]
    rfl

/--  A concrete filesystem in which the temp report exists.  -/
def fsR : FS := ⟨fun q => if q = "C:/f/temp_report.xlsx" then some [1] else none, []⟩

/--  Witness for C7 with an engine producing no report and one producing a
report.  -/
theorem c7_missing_report_witness :
    ((run_qa emptyFS "C:/f" (fun s => s) false).2 = .no_report_exit
      ∧ (run_qa emptyFS "C:/f" (fun s => s) true).2 = .no_action)
    ∧ (run_qa emptyFS "C:/f" (fun _ => fsR) true).2 = .report_processed :=
  ⟨(c7_missing_report emptyFS "C:/f" (fun s => s)).1 rfl,
   (c7_missing_report emptyFS "C:/f" (fun _ => fsR)).2 true (by decide)⟩

inductive SaveOutcome where
  | cancelled_exit
  | nothing_to_save
  | saved (path : String)

inductive LoopRes where
  | cancelled
  | got (attempt : Nat) (name : String)

/--  The `while not report_saved` loop of `process_and_save_report`
(`main.py` lines 467-488).  The `try` block contains only the
`asksaveasfilename` dialog — a pure prompt performing no file write, so its
`except PermissionError` arm can never fire; `dialogRaises` is kept as an
oracle for that (impossible) event to preserve the loop shape.  `dialog`
returning `none` is a cancelled dialog (`sys.exit()`); otherwise
`report_saved = True` ends the loop.  Fuel bounds the iterations, `none`
meaning exhaustion.  -/
def save_name_loop (dialog : Nat → Option String) (dialogRaises : Nat → Bool) :
    Nat → Nat → Option LoopRes
  | 0, _ => none
  | fuel + 1, attempt =>
    if dialogRaises attempt then
      save_name_loop dialog dialogRaises fuel (attempt + 1)
    else
      match dialog attempt with
      | none => some .cancelled
      | some name => some (.got attempt name)

/--  `process_and_save_report`: delete the temp report file, filter the
sheets, and — when sheets remain — run the name dialog loop and then call
`wb_verifika.save(new_report_name)`.  The save call sits after the loop and
outside any `try`, so `locked attempt name = true` (destination open in
another application at the moment of the single save call) raises an
uncaught `PermissionError`, modelled as `.error ()`.  -/
def process_and_save_report (fs : FS) (temp_report_name : String) (wb : List Sheet)
    (sheets_to_keep : List String) (dialog : Nat → Option String)
    (dialogRaises : Nat → Bool) (locked : Nat → String → Bool)
    (serialize : List Sheet → List Nat) (fuel : Nat) :
    Except Unit (FS × SaveOutcome) :=
  let fs1 := fs.removeFile temp_report_name
  match filterSheets sheets_to_keep wb with
  | .error _ => .error ()
  | .ok wb2 =>
    if wb2.length > 0 then
      match save_name_loop dialog dialogRaises fuel 0 with
      | none => .error ()
      | some .cancelled => .ok (fs1, .cancelled_exit)
      | some (.got attempt name) =>
        if locked attempt name then .error ()
        else .ok (fs1.write name (serialize wb2), .saved name)
    else .ok (fs1, .nothing_to_save)

/--  C3 is a code bug: with one sheet remaining, a destination locked on the
first attempt and free from the second attempt on, the `PermissionError`
raised by `wb_verifika.save` escapes (`.error ()`): the `except
PermissionError` handler guards only the `asksaveasfilename` dialog, the
loop ends after its first iteration (second conjunct), and no save retry
ever happens — contradicting the claimed catch-and-re-prompt behaviour.  -/
theorem c3_save_retry_code_bug :
    process_and_save_report emptyFS "C:/f/temp_report.xlsx" [Sheet.mk "Common Errors" 20]
      ["Full"] (fun _ => some "C:/f/QA report.xlsx") (fun _ => false)
      (fun attempt _ => attempt == 0) (fun _ => []) 5 = .error ()
    ∧ save_name_loop (fun _ => some "C:/f/QA report.xlsx") (fun _ => false) 5 0 =
        some (.got 0 "C:/f/QA report.xlsx")
    ∧ (fun (attempt : Nat) (_ : String) => attempt == 0) 1 "C:/f/QA report.xlsx" = false := by
  refine ⟨?_, rfl, rfl⟩
  rfl
